import Mathlib

/-!
Verification of the wildcard-DNS HTTP reverse proxy (`src/main.rs`) against its
natural-language specification.

The development shallowly embeds the request-handling code:

* `extract_domain` embeds the Rust function of the same name, whose regex is
  `^(?<domain>([a-zA-Z0-9][a-zA-Z0-9-]*[a-zA-Z0-9]*\.)+)([0-9]{1,3}\.){4}nip\.io(:[0-9]+)?$`.
  Since every token of the regex other than the literal dots and the optional
  `:port` excludes `.` and `:`, a string matches iff its dot-separated
  components are: one or more labels, then four 1-to-3-digit groups, then the
  literals `nip` and `io`, optionally followed by `:` and a nonempty digit
  string; the capture `domain` is the label components each re-terminated with
  a dot.  (Note `[a-zA-Z0-9][a-zA-Z0-9-]*[a-zA-Z0-9]*` matches exactly the
  nonempty alnum-hyphen strings starting with an alnum character, because the
  final `[a-zA-Z0-9]*` is subsumed by the preceding `[a-zA-Z0-9-]*`.)
* `get_upgrade_type` embeds the Rust function of the same name.
* `proxy` embeds the `proxy` request handler as a straight-line function from
  a request model plus an environment (outcomes of the I/O steps) to a final
  outcome together with the list of effects it performed, in program order.
-/

/-- Prepend a character to the first part of a partition. -/
def consHead (c : Char) : List (List Char) → List (List Char)
  | [] => [[c]]
  | h :: t => (c :: h) :: t

/-- Split a character list at every occurrence of `sep` (Rust `str::split`):
`"a,,b"` yields `["a", "", "b"]` and the empty string yields `[""]`. -/
def splitOnChar (sep : Char) : List Char → List (List Char)
  | [] => [[]]
  | c :: cs =>
    if c = sep then [] :: splitOnChar sep cs
    else consHead c (splitOnChar sep cs)

/-- Interleave `sep` between the parts (inverse of `splitOnChar`). -/
def intercalateChar (sep : Char) : List (List Char) → List Char
  | [] => []
  | [p] => p
  | p :: rest => p ++ sep :: intercalateChar sep rest

/-- The regex class `[a-zA-Z0-9]` (all regex character classes here are ASCII-only). -/
def isAlnumChar (c : Char) : Bool := c.isAlpha || c.isDigit

/-- One dot-separated component matching the regex label piece
`[a-zA-Z0-9][a-zA-Z0-9-]*[a-zA-Z0-9]*`: nonempty, first character
alphanumeric, remaining characters alphanumeric or hyphen. -/
def isLabelChars (cs : List Char) : Bool :=
  match cs with
  | [] => false
  | c :: rest => isAlnumChar c && rest.all (fun d => isAlnumChar d || d == '-')

/-- One dotted-quad group, regex `[0-9]{1,3}`. -/
def isQuadChars (cs : List Char) : Bool :=
  !cs.isEmpty && decide (cs.length ≤ 3) && cs.all Char.isDigit

/-- The digits of the optional port, regex `[0-9]+`. -/
def isPortChars (cs : List Char) : Bool :=
  !cs.isEmpty && cs.all Char.isDigit

/-- Re-terminate each component with a dot and concatenate; this is the form
of the `domain` capture (e.g. `["foo", "bar"]` becomes `"foo.bar."`). -/
def joinDots (parts : List (List Char)) : List Char :=
  (parts.map (· ++ ['.'])).flatten

/-- The characters of the literal `nip`. -/
def nipChars : List Char := ['n', 'i', 'p']

/-- The characters of the literal `io`. -/
def ioChars : List Char := ['i', 'o']

/-- Match the part of the regex before the optional `:port` against the
host characters: the dot-separated components must be one or more labels,
four digit groups, then literally `nip` and `io`; on success return the
`domain` capture, i.e. the label components each followed by a dot. -/
def domainOfHostChars (h : List Char) : Option (List Char) :=
  match (splitOnChar '.' h).reverse with
  | io :: np :: q4 :: q3 :: q2 :: q1 :: rest =>
    if io == ioChars && np == nipChars
        && isQuadChars q1 && isQuadChars q2 && isQuadChars q3 && isQuadChars q4
        && !rest.isEmpty && rest.all isLabelChars then
      some (joinDots rest.reverse)
    else
      none
  | _ => none

/-- Embedding of Rust `extract_domain`: match the whole Host string against
`^(?<domain>(label\.)+)([0-9]{1,3}\.){4}nip\.io(:[0-9]+)?$` and return the
`domain` capture.  Since `:` can occur only in the port suffix, the string is
first split at `:`; the optional port must be a nonempty digit string. -/
def extract_domain (s : String) : Option String :=
  match splitOnChar ':' s.data with
  | [h] => (domainOfHostChars h).map String.mk
  | [h, p] => if isPortChars p then (domainOfHostChars h).map String.mk else none
  | _ => none

/-- Spec §4.1 label (refinement side, following the specification text, to be
compared with the source-derived `isLabelChars`): "alphanumeric-with-hyphen
labels (not starting/ending with hyphen)". -/
def specLabelChars (cs : List Char) : Bool :=
  !cs.isEmpty && cs.all (fun c => isAlnumChar c || c == '-')
    && (match cs.head? with | some c => isAlnumChar c | none => false)
    && (match cs.getLast? with | some c => isAlnumChar c | none => false)

/-- Spec §4.1 grammar on the host part (refinement side): like
`domainOfHostChars` but with the specification's labels, which may not end in
a hyphen. -/
def specDomainOfHost (h : List Char) : Option (List Char) :=
  match (splitOnChar '.' h).reverse with
  | io :: np :: q4 :: q3 :: q2 :: q1 :: rest =>
    if io == ioChars && np == nipChars
        && isQuadChars q1 && isQuadChars q2 && isQuadChars q3 && isQuadChars q4
        && !rest.isEmpty && rest.all specLabelChars then
      some (joinDots rest.reverse)
    else
      none
  | _ => none

/-- Whether a Host string matches the grammar as the specification states it
(refinement side): `^(label.)+((d{1,3}.){4}nip.io)(:port)?$` with labels not
starting or ending with a hyphen and an all-digit port. -/
def specGrammarMatch (s : String) : Bool :=
  match splitOnChar ':' s.data with
  | [h] => (specDomainOfHost h).isSome
  | [h, p] => isPortChars p && (specDomainOfHost h).isSome
  | _ => false

/-- The rendering of a decomposition `labels ++ quad ++ nip.io [:port]` back
into a Host character string: components joined with dots, then the optional
port after a colon. -/
def renderChars (ls qs : List (List Char)) (pOpt : Option (List Char)) : List Char :=
  intercalateChar '.' (ls ++ qs ++ [nipChars, ioChars])
    ++ (match pOpt with | none => [] | some pc => ':' :: pc)

/-- ASCII lowercasing of one character (Rust `to_lowercase` restricted to the
ASCII header values the proxy handles). -/
def lowerChar (c : Char) : Char :=
  if c.isUpper then Char.ofNat (c.toNat + 32) else c

/-- ASCII lowercasing of a character list. -/
def asciiLowerChars (cs : List Char) : List Char := cs.map lowerChar

/-- ASCII lowercasing of a string. -/
def asciiLower (s : String) : String := String.mk (asciiLowerChars s.data)

/-- Rust `str::trim` on the ASCII header values in play: drop whitespace from
both ends. -/
def trimChars (cs : List Char) : List Char :=
  ((cs.dropWhile Char.isWhitespace).reverse.dropWhile Char.isWhitespace).reverse

/-- A header map modelled as an association list in wire order.  Lookup is
case-insensitive (http `HeaderMap` normalizes header names); `get` returns the
first value for the name. -/
def headerGet (hs : List (String × String)) (name : String) : Option String :=
  (hs.find? (fun kv => asciiLower kv.1 == asciiLower name)).map (·.2)

/-- http `HeaderMap::remove`: drop every value for the (case-insensitive)
name. -/
def headerRemove (hs : List (String × String)) (name : String) :
    List (String × String) :=
  hs.filter (fun kv => !(asciiLower kv.1 == asciiLower name))

/-- http `HeaderMap::insert`: any previous values for the name are dropped and
the single new pair is present afterwards. -/
def headerInsert (hs : List (String × String)) (name value : String) :
    List (String × String) :=
  headerRemove hs name ++ [(name, value)]

/-- The Host rewrite of `proxy` (lines 61-65): the `format!` of host and
`args.domain_suffix` is plain concatenation, then `remove("host")` followed by
`insert("host", host)`. -/
def rewriteHostHeaders (hs : List (String × String)) (dom sfx : String) :
    List (String × String) :=
  headerInsert (headerRemove hs "host") "host" (dom ++ sfx)

/-- Embedding of Rust `get_upgrade_type`: if the `connection` header exists
and one of its comma-separated pieces, trimmed and lowercased, is `upgrade`,
return the `upgrade` header value (if any); otherwise `None`. -/
def get_upgrade_type (headers : List (String × String)) : Option String :=
  let hasTok :=
    match headerGet headers "connection" with
    | some v =>
      (splitOnChar ',' v.data).any
        (fun e => asciiLowerChars (trimChars e) == "upgrade".data)
    | none => false
  if hasTok then headerGet headers "upgrade" else none

/-- Whether `HeaderValue::to_str` succeeds on this value: every byte is
visible ASCII, space or horizontal tab. -/
def toStrOk (s : String) : Bool :=
  s.data.all (fun c => decide (32 ≤ c.toNat ∧ c.toNat < 127) || c.toNat == 9)

/-- The inbound request as `proxy` observes it: its header map and whether its
extensions carry the hyper `OnUpgrade` handle (the raw-byte handoff
capability). -/
structure RequestM where
  headers : List (String × String)
  hasOnUpgrade : Bool
deriving DecidableEq

/-- The backend response as `proxy` observes it. -/
structure ResponseM where
  status : Nat
  headers : List (String × String)
  hasOnUpgrade : Bool
deriving DecidableEq

/-- Outcomes of the I/O steps `proxy` performs, fixed before the run:
`TcpStream::connect`, the hyper client handshake, `send_request`, and the
await of the response `OnUpgrade` handle. -/
structure ProxyEnv where
  connectOk : Bool
  handshakeOk : Bool
  sendResult : Option ResponseM
  respUpgradeAwaitOk : Bool
deriving DecidableEq

/-- The externally visible effects of one `proxy` run, in program order. -/
inductive Ev where
  | connectAttempt
  | detectReqUpgrade
  | removeOnUpgrade
  | sendRequest
  | spawnBridge
  | logError (msg : String)
deriving DecidableEq

/-- How one `proxy` run ends: a Rust panic (an `unwrap`/`expect`/index
failure unwinding out of the handler), an `Err` returned to hyper through
`?` (the connection is torn down with no response written), or `Ok` with the
response handed to the client. -/
inductive Outcome where
  | panic (msg : String)
  | fail
  | ok (resp : ResponseM)
deriving DecidableEq

/-- Embedding of the `proxy` request handler (`src/main.rs` lines 56-129) as
a straight-line function, keeping the statements in source order:
Host read (`headers["host"]` panics when absent, `to_str().unwrap()` panics
on a non-ASCII value, `extract_domain(..).unwrap()` panics on no match), host
rewrite, `TcpStream::connect(..).unwrap()`, upgrade detection and `OnUpgrade`
removal, handshake (`?`), `send_request` (`?`), then the 101 branch. -/
def proxy (req : RequestM) (sfx : String) (env : ProxyEnv) : Outcome × List Ev :=
  match headerGet req.headers "host" with
  | none => (.panic "no entry found for key host", [])
  | some hv =>
    if toStrOk hv then
      match extract_domain hv with
      | none => (.panic "called Option unwrap on a None value", [])
      | some dom =>
        let headers1 := rewriteHostHeaders req.headers dom sfx
        if env.connectOk then
          let reqUT := get_upgrade_type headers1
          let hasHook := req.hasOnUpgrade
          if env.handshakeOk then
            match env.sendResult with
            | none =>
              (.fail, [.connectAttempt, .detectReqUpgrade, .removeOnUpgrade, .sendRequest])
            | some resp =>
              if resp.status = 101 then
                let respUT := get_upgrade_type resp.headers
                if reqUT = respUT then
                  if hasHook then
                    if resp.hasOnUpgrade then
                      if env.respUpgradeAwaitOk then
                        (.ok resp,
                          [.connectAttempt, .detectReqUpgrade, .removeOnUpgrade,
                            .sendRequest, .spawnBridge])
                      else
                        (.fail,
                          [.connectAttempt, .detectReqUpgrade, .removeOnUpgrade,
                            .sendRequest])
                    else
                      (.panic "response does not have an upgrade extension",
                        [.connectAttempt, .detectReqUpgrade, .removeOnUpgrade,
                          .sendRequest])
                  else
                    (.ok resp,
                      [.connectAttempt, .detectReqUpgrade, .removeOnUpgrade,
                        .sendRequest,
                        .logError "request does not have an upgrade extension"])
                else
                  (.ok resp,
                    [.connectAttempt, .detectReqUpgrade, .removeOnUpgrade,
                      .sendRequest,
                      .logError "backend tried to switch to a different protocol"])
              else
                (.ok resp,
                  [.connectAttempt, .detectReqUpgrade, .removeOnUpgrade, .sendRequest])
          else
            (.fail, [.connectAttempt, .detectReqUpgrade, .removeOnUpgrade])
        else
          (.panic "called Result unwrap on an Err value",
            [.connectAttempt])
    else
      (.panic "called Result unwrap on an Err value: ToStrError", [])

theorem splitOnChar_ne_nil (sep : Char) (cs : List Char) : splitOnChar sep cs ≠ [] := by
  induction cs with
  | nil => simp [splitOnChar]
  | cons c cs ih =>
    simp only [splitOnChar]
    split
    · simp
    · cases h : splitOnChar sep cs with
      | nil => simp [consHead]
      | cons a t => simp [consHead]

theorem splitOnChar_of_not_mem {sep : Char} {cs : List Char} (h : sep ∉ cs) :
    splitOnChar sep cs = [cs] := by
  induction cs with
  | nil => rfl
  | cons c cs ih =>
    simp only [List.mem_cons, not_or] at h
    have hcs : c ≠ sep := fun hh => h.1 hh.symm
    rw [show splitOnChar sep (c :: cs)
          = if c = sep then [] :: splitOnChar sep cs
            else consHead c (splitOnChar sep cs) from rfl,
      if_neg hcs, ih h.2]
    rfl

theorem splitOnChar_append_sep {sep : Char} {a b : List Char} (h : sep ∉ a) :
    splitOnChar sep (a ++ sep :: b) = a :: splitOnChar sep b := by
  induction a with
  | nil => simp [splitOnChar]
  | cons x a ih =>
    simp only [List.mem_cons, not_or] at h
    have hcs : x ≠ sep := fun hh => h.1 hh.symm
    rw [show (x :: a) ++ sep :: b = x :: (a ++ sep :: b) from rfl,
      show splitOnChar sep (x :: (a ++ sep :: b))
          = if x = sep then [] :: splitOnChar sep (a ++ sep :: b)
            else consHead x (splitOnChar sep (a ++ sep :: b)) from rfl,
      if_neg hcs, ih h.2]
    rfl

theorem splitOnChar_intercalateChar {sep : Char} {parts : List (List Char)}
    (hne : parts ≠ []) (h : ∀ p ∈ parts, sep ∉ p) :
    splitOnChar sep (intercalateChar sep parts) = parts := by
  induction parts with
  | nil => exact absurd rfl hne
  | cons p rest ih =>
    cases rest with
    | nil =>
      simpa [intercalateChar] using splitOnChar_of_not_mem (h p (by simp))
    | cons q rest2 =>
      rw [show intercalateChar sep (p :: q :: rest2)
            = p ++ sep :: intercalateChar sep (q :: rest2) from rfl]
      rw [splitOnChar_append_sep (h p (by simp))]
      rw [ih (by simp) (fun x hx => h x (List.mem_cons_of_mem p hx))]

theorem intercalateChar_splitOnChar (sep : Char) (cs : List Char) :
    intercalateChar sep (splitOnChar sep cs) = cs := by
  induction cs with
  | nil => rfl
  | cons c cs ih =>
    obtain ⟨a, t, ht⟩ : ∃ a t, splitOnChar sep cs = a :: t := by
      cases hh : splitOnChar sep cs with
      | nil => exact absurd hh (splitOnChar_ne_nil sep cs)
      | cons a t => exact ⟨a, t, rfl⟩
    simp only [splitOnChar]
    split
    · next hc =>
      rw [ht]
      rw [show intercalateChar sep ([] :: a :: t)
            = [] ++ sep :: intercalateChar sep (a :: t) from rfl]
      rw [← ht, ih, hc]
      rfl
    · next hc =>
      rw [ht]
      rw [show consHead c (a :: t) = (c :: a) :: t from rfl]
      cases t with
      | nil =>
        have : a = cs := by rw [ht] at ih; exact ih
        rw [show intercalateChar sep [c :: a] = c :: a from rfl, this]
      | cons u t2 =>
        rw [ht] at ih
        rw [show intercalateChar sep ((c :: a) :: u :: t2)
              = (c :: a) ++ sep :: intercalateChar sep (u :: t2) from rfl]
        rw [show intercalateChar sep (a :: u :: t2)
              = a ++ sep :: intercalateChar sep (u :: t2) from rfl] at ih
        simp only [List.cons_append, ih]

theorem not_mem_intercalateChar {c sep : Char} {parts : List (List Char)}
    (hcs : c ≠ sep) (h : ∀ p ∈ parts, c ∉ p) : c ∉ intercalateChar sep parts := by
  induction parts with
  | nil => simp [intercalateChar]
  | cons p rest ih =>
    cases rest with
    | nil => simpa [intercalateChar] using h p (by simp)
    | cons q rest2 =>
      rw [show intercalateChar sep (p :: q :: rest2)
            = p ++ sep :: intercalateChar sep (q :: rest2) from rfl]
      simp only [List.mem_append, List.mem_cons, not_or]
      exact ⟨h p (by simp), hcs,
        ih (fun x hx => h x (List.mem_cons_of_mem p hx))⟩

theorem not_mem_of_all_alnumHyphen {l : List Char}
    (h : ∀ x ∈ l, (isAlnumChar x || x == '-') = true)
    {c : Char} (hc : (isAlnumChar c || c == '-') = false) : c ∉ l := by
  intro hm
  have := h c hm
  rw [hc] at this
  exact Bool.false_ne_true this

theorem label_all_alnumHyphen {l : List Char} (hl : isLabelChars l = true) :
    ∀ c ∈ l, (isAlnumChar c || c == '-') = true := by
  cases l with
  | nil => simp [isLabelChars] at hl
  | cons a rest =>
    simp only [isLabelChars, Bool.and_eq_true, List.all_eq_true] at hl
    intro c hc
    rcases List.mem_cons.mp hc with rfl | hc
    · simp [hl.1]
    · exact hl.2 c hc

theorem quad_all_alnumHyphen {l : List Char} (hl : isQuadChars l = true) :
    ∀ c ∈ l, (isAlnumChar c || c == '-') = true := by
  simp only [isQuadChars, Bool.and_eq_true, List.all_eq_true] at hl
  intro c hc
  have : c.isDigit = true := hl.2 c hc
  simp [isAlnumChar, this]

theorem spec_label_imp_label {l : List Char} (h : specLabelChars l = true) :
    isLabelChars l = true := by
  cases l with
  | nil => simp [specLabelChars] at h
  | cons a rest =>
    simp only [specLabelChars, Bool.and_eq_true, List.all_eq_true,
      List.head?_cons] at h
    simp only [isLabelChars, Bool.and_eq_true, List.all_eq_true]
    exact ⟨h.1.2, fun c hc => h.1.1.2 c (List.mem_cons_of_mem a hc)⟩

theorem port_all_alnumHyphen {l : List Char} (hl : isPortChars l = true) :
    ∀ c ∈ l, (isAlnumChar c || c == '-') = true := by
  simp only [isPortChars, Bool.and_eq_true, List.all_eq_true] at hl
  intro c hc
  have : c.isDigit = true := hl.2 c hc
  simp [isAlnumChar, this]

theorem data_mk (cs : List Char) : (String.mk cs).data = cs := rfl

theorem render_parts_all_alnumHyphen {ls : List (List Char)} {q1 q2 q3 q4 : List Char}
    (hls : ∀ l ∈ ls, isLabelChars l = true)
    (h1 : isQuadChars q1 = true) (h2 : isQuadChars q2 = true)
    (h3 : isQuadChars q3 = true) (h4 : isQuadChars q4 = true) :
    ∀ p ∈ ls ++ [q1, q2, q3, q4] ++ [nipChars, ioChars],
      ∀ c ∈ p, (isAlnumChar c || c == '-') = true := by
  intro p hp
  rcases List.mem_append.mp hp with hp' | hp'
  · rcases List.mem_append.mp hp' with hl | hq
    · exact label_all_alnumHyphen (hls p hl)
    · simp only [List.mem_cons, List.not_mem_nil, or_false] at hq
      rcases hq with rfl | rfl | rfl | rfl
      · exact quad_all_alnumHyphen h1
      · exact quad_all_alnumHyphen h2
      · exact quad_all_alnumHyphen h3
      · exact quad_all_alnumHyphen h4
  · simp only [List.mem_cons, List.not_mem_nil, or_false] at hp'
    rcases hp' with rfl | rfl
    · exact label_all_alnumHyphen (by decide)
    · exact label_all_alnumHyphen (by decide)

theorem domainOfHostChars_render {ls : List (List Char)} {q1 q2 q3 q4 : List Char}
    (hne : ls ≠ []) (hls : ∀ l ∈ ls, isLabelChars l = true)
    (h1 : isQuadChars q1 = true) (h2 : isQuadChars q2 = true)
    (h3 : isQuadChars q3 = true) (h4 : isQuadChars q4 = true) :
    domainOfHostChars
        (intercalateChar '.' (ls ++ [q1, q2, q3, q4] ++ [nipChars, ioChars]))
      = some (joinDots ls) := by
  have hAll := render_parts_all_alnumHyphen hls h1 h2 h3 h4
  have hdot : ∀ p ∈ ls ++ [q1, q2, q3, q4] ++ [nipChars, ioChars], '.' ∉ p :=
    fun p hp => not_mem_of_all_alnumHyphen (hAll p hp) (by decide)
  have hsplit := @splitOnChar_intercalateChar '.'
    (ls ++ [q1, q2, q3, q4] ++ [nipChars, ioChars]) (by simp) hdot
  have hrev : (ls ++ [q1, q2, q3, q4] ++ [nipChars, ioChars]).reverse
      = ioChars :: nipChars :: q4 :: q3 :: q2 :: q1 :: ls.reverse := by
    simp
  have hemp : (ls.reverse).isEmpty = false := by
    cases hr : ls.reverse with
    | nil => exact absurd (List.reverse_eq_nil_iff.mp hr) hne
    | cons a t => rfl
  have hall2 : (ls.reverse).all isLabelChars = true := by
    simp only [List.all_eq_true, List.mem_reverse]
    exact hls
  unfold domainOfHostChars
  rw [hsplit, hrev]
  simp only [h1, h2, h3, h4, hemp, hall2, beq_self_eq_true, Bool.and_true,
    Bool.and_self, Bool.not_false, Bool.true_and, if_true, List.reverse_reverse]

/-- C4: every input of the form one-or-more dot-terminated labels, a
dotted-quad, the suffix `nip.io` and an optional all-digit `:port` yields
exactly the dot-terminated label sequence, and in particular the four
concrete test vectors of `test_regex` hold. -/
theorem extract_domain_grammar_complete :
    (∀ (ls : List (List Char)) (q1 q2 q3 q4 : List Char) (pOpt : Option (List Char)),
      ls ≠ [] → (∀ l ∈ ls, specLabelChars l = true) →
      isQuadChars q1 = true → isQuadChars q2 = true →
      isQuadChars q3 = true → isQuadChars q4 = true →
      (∀ pc ∈ pOpt, isPortChars pc = true) →
      extract_domain (String.mk (renderChars ls [q1, q2, q3, q4] pOpt))
        = some (String.mk (joinDots ls)))
    ∧ extract_domain "foo.192.168.1.1.nip.io" = some "foo."
    ∧ extract_domain "foo.bar.192.168.1.1.nip.io" = some "foo.bar."
    ∧ extract_domain "foo.192.168.1.1.nip.io:8888" = some "foo."
    ∧ extract_domain "foo.bar.192.168.1.1.nip.io:8888" = some "foo.bar." := by
  refine ⟨?_, by decide, by decide, by decide, by decide⟩
  intro ls q1 q2 q3 q4 pOpt hne hls h1 h2 h3 h4 hp
  have hlsC : ∀ l ∈ ls, isLabelChars l = true :=
    fun l hl => spec_label_imp_label (hls l hl)
  have hAll := render_parts_all_alnumHyphen hlsC h1 h2 h3 h4
  have hcolon : ':' ∉ intercalateChar '.' (ls ++ [q1, q2, q3, q4] ++ [nipChars, ioChars]) :=
    not_mem_intercalateChar (by decide)
      (fun p hp' => not_mem_of_all_alnumHyphen (hAll p hp') (by decide))
  cases pOpt with
  | none =>
    rw [show renderChars ls [q1, q2, q3, q4] none
          = intercalateChar '.' (ls ++ [q1, q2, q3, q4] ++ [nipChars, ioChars])
        by simp [renderChars]]
    unfold extract_domain
    rw [data_mk, splitOnChar_of_not_mem hcolon]
    show (domainOfHostChars
        (intercalateChar '.' (ls ++ [q1, q2, q3, q4] ++ [nipChars, ioChars]))).map
          String.mk
      = some (String.mk (joinDots ls))
    rw [domainOfHostChars_render hne hlsC h1 h2 h3 h4]
    rfl
  | some pc =>
    have hpc : isPortChars pc = true := hp pc rfl
    have hpcolon : ':' ∉ pc :=
      not_mem_of_all_alnumHyphen (port_all_alnumHyphen hpc) (by decide)
    rw [show renderChars ls [q1, q2, q3, q4] (some pc)
          = intercalateChar '.' (ls ++ [q1, q2, q3, q4] ++ [nipChars, ioChars])
            ++ ':' :: pc from rfl]
    unfold extract_domain
    rw [data_mk, splitOnChar_append_sep hcolon, splitOnChar_of_not_mem hpcolon]
    show (if isPortChars pc = true then
        (domainOfHostChars
          (intercalateChar '.' (ls ++ [q1, q2, q3, q4] ++ [nipChars, ioChars]))).map
            String.mk
      else none) = some (String.mk (joinDots ls))
    rw [if_pos hpc, domainOfHostChars_render hne hlsC h1 h2 h3 h4]
    rfl

theorem extract_domain_grammar_complete_witness :
    extract_domain (String.mk (renderChars [['f','o','o'], ['b','a','r']]
        [['1','9','2'], ['1','6','8'], ['1'], ['1']] (some ['8','8','8','8'])))
      = some (String.mk (joinDots [['f','o','o'], ['b','a','r']])) :=
  extract_domain_grammar_complete.1 [['f','o','o'], ['b','a','r']]
    ['1','9','2'] ['1','6','8'] ['1'] ['1'] (some ['8','8','8','8'])
    (by decide) (by decide) (by decide) (by decide) (by decide) (by decide)
    (by decide)

theorem domainOfHostChars_render_nolabel {q1 q2 q3 q4 : List Char}
    (h1 : isQuadChars q1 = true) (h2 : isQuadChars q2 = true)
    (h3 : isQuadChars q3 = true) (h4 : isQuadChars q4 = true) :
    domainOfHostChars
        (intercalateChar '.' ([q1, q2, q3, q4] ++ [nipChars, ioChars]))
      = none := by
  have hAll := @render_parts_all_alnumHyphen [] q1 q2 q3 q4 (by simp) h1 h2 h3 h4
  have hdot : ∀ p ∈ [q1, q2, q3, q4] ++ [nipChars, ioChars], '.' ∉ p :=
    fun p hp => not_mem_of_all_alnumHyphen (hAll p (by simpa using hp)) (by decide)
  have hsplit := @splitOnChar_intercalateChar '.'
    ([q1, q2, q3, q4] ++ [nipChars, ioChars]) (by simp) hdot
  have hrev : ([q1, q2, q3, q4] ++ [nipChars, ioChars]).reverse
      = ioChars :: nipChars :: q4 :: q3 :: q2 :: q1 :: [] := by simp
  unfold domainOfHostChars
  rw [hsplit, hrev]
  simp

/-- C9: a dotted-quad followed directly by `nip.io`, with no tenant label in
front and with or without a port, is rejected by `extract_domain` — the regex
requires at least one label before the four digit groups. -/
theorem extract_domain_no_label_no_match :
    ∀ (q1 q2 q3 q4 : List Char) (pOpt : Option (List Char)),
      isQuadChars q1 = true → isQuadChars q2 = true →
      isQuadChars q3 = true → isQuadChars q4 = true →
      (∀ pc ∈ pOpt, isPortChars pc = true) →
      extract_domain (String.mk (renderChars [] [q1, q2, q3, q4] pOpt)) = none := by
  intro q1 q2 q3 q4 pOpt h1 h2 h3 h4 hp
  have hAll := @render_parts_all_alnumHyphen [] q1 q2 q3 q4 (by simp) h1 h2 h3 h4
  have hcolon : ':' ∉ intercalateChar '.' ([q1, q2, q3, q4] ++ [nipChars, ioChars]) :=
    not_mem_intercalateChar (by decide)
      (fun p hp' => not_mem_of_all_alnumHyphen (hAll p (by simpa using hp')) (by decide))
  cases pOpt with
  | none =>
    rw [show renderChars [] [q1, q2, q3, q4] none
          = intercalateChar '.' ([q1, q2, q3, q4] ++ [nipChars, ioChars])
        by simp [renderChars]]
    unfold extract_domain
    rw [data_mk, splitOnChar_of_not_mem hcolon]
    show (domainOfHostChars
        (intercalateChar '.' ([q1, q2, q3, q4] ++ [nipChars, ioChars]))).map
          String.mk = none
    rw [domainOfHostChars_render_nolabel h1 h2 h3 h4]
    rfl
  | some pc =>
    have hpc : isPortChars pc = true := hp pc rfl
    have hpcolon : ':' ∉ pc :=
      not_mem_of_all_alnumHyphen (port_all_alnumHyphen hpc) (by decide)
    rw [show renderChars [] [q1, q2, q3, q4] (some pc)
          = intercalateChar '.' ([q1, q2, q3, q4] ++ [nipChars, ioChars])
            ++ ':' :: pc from rfl]
    unfold extract_domain
    rw [data_mk, splitOnChar_append_sep hcolon, splitOnChar_of_not_mem hpcolon]
    show (if isPortChars pc = true then
        (domainOfHostChars
          (intercalateChar '.' ([q1, q2, q3, q4] ++ [nipChars, ioChars]))).map
            String.mk
      else none) = none
    rw [if_pos hpc, domainOfHostChars_render_nolabel h1 h2 h3 h4]
    rfl

theorem extract_domain_no_label_no_match_witness :
    extract_domain (String.mk (renderChars []
        [['1'], ['2'], ['3'], ['4']] (some ['8','0','8','0']))) = none :=
  extract_domain_no_label_no_match ['1'] ['2'] ['3'] ['4'] (some ['8','0','8','0'])
    (by decide) (by decide) (by decide) (by decide) (by decide)

theorem domainOfHostChars_sound {h d0 : List Char}
    (hd : domainOfHostChars h = some d0) :
    ∃ (ls : List (List Char)) (q1 q2 q3 q4 : List Char),
      h = intercalateChar '.' (ls ++ [q1, q2, q3, q4] ++ [nipChars, ioChars])
        ∧ ls ≠ [] ∧ (∀ l ∈ ls, isLabelChars l = true)
        ∧ isQuadChars q1 = true ∧ isQuadChars q2 = true
        ∧ isQuadChars q3 = true ∧ isQuadChars q4 = true
        ∧ d0 = joinDots ls := by
  unfold domainOfHostChars at hd
  rcases hrev : (splitOnChar '.' h).reverse with _ | ⟨io, _ | ⟨np, _ | ⟨q4, _ |
    ⟨q3, _ | ⟨q2, _ | ⟨q1, rest⟩⟩⟩⟩⟩⟩ <;> rw [hrev] at hd <;> simp at hd
  obtain ⟨⟨⟨⟨⟨⟨⟨⟨hio, hnp⟩, h1⟩, h2⟩, h3⟩, h4⟩, hrne⟩, hall⟩, hjoin⟩ := hd
  refine ⟨rest.reverse, q1, q2, q3, q4, ?_, ?_, ?_, h1, h2, h3, h4, hjoin.symm⟩
  · have hinv := intercalateChar_splitOnChar '.' h
    have hsp : splitOnChar '.' h
        = rest.reverse ++ [q1, q2, q3, q4] ++ [nipChars, ioChars] := by
      rw [← List.reverse_reverse (splitOnChar '.' h), hrev, hio, hnp]
      simp
    rw [← hinv, hsp]
  · exact fun hc => hrne (List.reverse_eq_nil_iff.mp hc)
  · intro l hl
    exact hall l (List.mem_reverse.mp hl)

/-- C5 counterexample: `"a-.1.2.3.4.nip.io"` does not match the grammar as the
specification states it (its label ends in a hyphen), yet `extract_domain`
matches it — the regex piece `[a-zA-Z0-9][a-zA-Z0-9-]*[a-zA-Z0-9]*` lets a
label end in a hyphen. -/
theorem extract_domain_accepts_trailing_hyphen_label :
    specGrammarMatch "a-.1.2.3.4.nip.io" = false
      ∧ extract_domain "a-.1.2.3.4.nip.io" = some "a-." := by
  constructor
  · decide
  · decide

/-- C5 amended: every string `extract_domain` matches decomposes under the
code's actual grammar — one or more dot-terminated labels (first character
alphanumeric, the rest alphanumeric or hyphen, so a label MAY end in a
hyphen), four 1-3 digit groups, the literal `nip.io`, and an optional
all-digit port — and every input outside that grammar, including every
wrong-suffix, missing-quad, empty-label, leading-hyphen-label or bad-port
input, yields `none`. -/
theorem extract_domain_sound :
    ∀ (s d : String), extract_domain s = some d →
      ∃ (ls : List (List Char)) (q1 q2 q3 q4 : List Char)
        (pOpt : Option (List Char)),
        s.data = renderChars ls [q1, q2, q3, q4] pOpt ∧ ls ≠ []
          ∧ (∀ l ∈ ls, isLabelChars l = true)
          ∧ isQuadChars q1 = true ∧ isQuadChars q2 = true
          ∧ isQuadChars q3 = true ∧ isQuadChars q4 = true
          ∧ (∀ pc ∈ pOpt, isPortChars pc = true)
          ∧ d.data = joinDots ls := by
  intro s d hsd
  unfold extract_domain at hsd
  rcases hsp : splitOnChar ':' s.data with _ | ⟨h, _ | ⟨p, _ | ⟨x, t⟩⟩⟩ <;>
    rw [hsp] at hsd <;> simp at hsd
  · -- no colon in the input
    obtain ⟨d0, hd0, hmk⟩ := hsd
    obtain ⟨ls, q1, q2, q3, q4, hh, hne, hls, h1, h2, h3, h4, hj⟩ :=
      domainOfHostChars_sound hd0
    refine ⟨ls, q1, q2, q3, q4, none, ?_, hne, hls, h1, h2, h3, h4, by simp, ?_⟩
    · have hinv := intercalateChar_splitOnChar ':' s.data
      rw [hsp] at hinv
      rw [show intercalateChar ':' [h] = h from rfl] at hinv
      rw [← hinv, hh]
      all_goals simp [renderChars]
    · rw [← hmk, hj]
  · -- exactly one colon: host and port
    obtain ⟨hport, d0, hd0, hmk⟩ := hsd
    obtain ⟨ls, q1, q2, q3, q4, hh, hne, hls, h1, h2, h3, h4, hj⟩ :=
      domainOfHostChars_sound hd0
    refine ⟨ls, q1, q2, q3, q4, some p, ?_, hne, hls, h1, h2, h3, h4,
      by simpa using hport, ?_⟩
    · have hinv := intercalateChar_splitOnChar ':' s.data
      rw [hsp] at hinv
      rw [show intercalateChar ':' [h, p] = h ++ ':' :: p from rfl] at hinv
      rw [← hinv, hh]
      all_goals simp [renderChars]
    · rw [← hmk, hj]

theorem extract_domain_sound_witness :
    ∃ (ls : List (List Char)) (q1 q2 q3 q4 : List Char)
      (pOpt : Option (List Char)),
      ("foo.192.168.1.1.nip.io").data = renderChars ls [q1, q2, q3, q4] pOpt
        ∧ ls ≠ [] ∧ (∀ l ∈ ls, isLabelChars l = true)
        ∧ isQuadChars q1 = true ∧ isQuadChars q2 = true
        ∧ isQuadChars q3 = true ∧ isQuadChars q4 = true
        ∧ (∀ pc ∈ pOpt, isPortChars pc = true)
        ∧ ("foo.").data = joinDots ls :=
  extract_domain_sound "foo.192.168.1.1.nip.io" "foo." (by decide)

theorem proxy_run_cases (req : RequestM) (sfx : String) (env : ProxyEnv) :
    ((proxy req sfx env).2 = [] ∨ (proxy req sfx env).2 = [Ev.connectAttempt]
      ∨ (proxy req sfx env).2
          = [Ev.connectAttempt, Ev.detectReqUpgrade, Ev.removeOnUpgrade]
      ∨ ∃ extra, (proxy req sfx env).2
          = [Ev.connectAttempt, Ev.detectReqUpgrade, Ev.removeOnUpgrade,
              Ev.sendRequest] ++ extra)
    ∧ (Ev.spawnBridge ∈ (proxy req sfx env).2 →
        ∃ resp hv dom, headerGet req.headers "host" = some hv
          ∧ extract_domain hv = some dom
          ∧ env.sendResult = some resp ∧ resp.status = 101
          ∧ req.hasOnUpgrade = true
          ∧ get_upgrade_type (rewriteHostHeaders req.headers dom sfx)
              = get_upgrade_type resp.headers) := by
  rcases hh : headerGet req.headers "host" with _ | hv
  · refine ⟨?_, ?_⟩ <;> simp [proxy, hh]
  by_cases ht : toStrOk hv = true
  case neg => refine ⟨?_, ?_⟩ <;> simp [proxy, hh, ht]
  rcases he : extract_domain hv with _ | dom
  · refine ⟨?_, ?_⟩ <;> simp [proxy, hh, ht, he]
  by_cases hc : env.connectOk = true
  case neg => refine ⟨?_, ?_⟩ <;> simp [proxy, hh, ht, he, hc]
  by_cases hk : env.handshakeOk = true
  case neg => refine ⟨?_, ?_⟩ <;> simp [proxy, hh, ht, he, hc, hk]
  rcases hsr : env.sendResult with _ | resp
  · refine ⟨?_, ?_⟩ <;> simp [proxy, hh, ht, he, hc, hk, hsr]
  by_cases h101 : resp.status = 101
  case neg =>
    refine ⟨?_, ?_⟩ <;> simp [proxy, hh, ht, he, hc, hk, hsr, h101]
  by_cases hut : get_upgrade_type (rewriteHostHeaders req.headers dom sfx)
      = get_upgrade_type resp.headers
  case neg =>
    refine ⟨?_, ?_⟩ <;> simp [proxy, hh, ht, he, hc, hk, hsr, h101, hut]
  by_cases hhook : req.hasOnUpgrade = true
  case neg =>
    refine ⟨?_, ?_⟩ <;> simp [proxy, hh, ht, he, hc, hk, hsr, h101, hut, hhook]
  by_cases hron : resp.hasOnUpgrade = true
  case neg =>
    refine ⟨?_, ?_⟩ <;>
      simp [proxy, hh, ht, he, hc, hk, hsr, h101, hut, hhook, hron]
  by_cases hawait : env.respUpgradeAwaitOk = true
  case neg =>
    refine ⟨?_, ?_⟩ <;>
      simp [proxy, hh, ht, he, hc, hk, hsr, h101, hut, hhook, hron, hawait]
  have hp : (proxy req sfx env).2
      = [Ev.connectAttempt, Ev.detectReqUpgrade, Ev.removeOnUpgrade,
          Ev.sendRequest, Ev.spawnBridge] := by
    simp [proxy, hh, ht, he, hc, hk, hsr, h101, hut, hhook, hron, hawait]
  rw [hp]
  exact ⟨Or.inr (Or.inr (Or.inr ⟨[Ev.spawnBridge], rfl⟩)),
    fun _ => ⟨resp, hv, dom, rfl, he, rfl, h101, hhook, hut⟩⟩

theorem filter_headerRemove (hs : List (String × String)) (name : String) :
    (headerRemove hs name).filter
        (fun kv => asciiLower kv.1 == asciiLower name) = [] := by
  induction hs with
  | nil => rfl
  | cons kv hs ih =>
    simp only [headerRemove] at ih ⊢
    rw [List.filter_cons]
    cases h : (asciiLower kv.1 == asciiLower name) with
    | false => simp [h, List.filter_cons, ih]
    | true => simp [h, List.filter_cons, ih]

/-- C6: after the Host rewrite the header map carries exactly one `host`
header, whose value is the plain concatenation of the matched prefix and the
configured domain suffix. -/
theorem rewrite_host_unique_header :
    ∀ (hs : List (String × String)) (dom sfx : String),
      (rewriteHostHeaders hs dom sfx).filter
          (fun kv => asciiLower kv.1 == asciiLower "host")
        = [("host", dom ++ sfx)] := by
  intro hs dom sfx
  unfold rewriteHostHeaders headerInsert
  rw [List.filter_append, filter_headerRemove]
  simp [List.filter_cons]

/-- C7: `get_upgrade_type` returns the `Upgrade` header value exactly when
the `Connection` header has a comma-separated token that trims and lowercases
to `upgrade` and an `Upgrade` header exists; and in the handler both the
request-side detection and the `OnUpgrade` removal happen strictly before the
request is sent to the backend. -/
theorem get_upgrade_type_spec :
    (∀ (hs : List (String × String)) (v : String),
      get_upgrade_type hs = some v ↔
        ∃ c, headerGet hs "connection" = some c
          ∧ (∃ t ∈ splitOnChar ',' c.data,
              asciiLowerChars (trimChars t) = "upgrade".data)
          ∧ headerGet hs "upgrade" = some v)
    ∧ (∀ (req : RequestM) (sfx : String) (env : ProxyEnv),
        Ev.sendRequest ∈ (proxy req sfx env).2 →
          (proxy req sfx env).2.indexOf Ev.detectReqUpgrade
              < (proxy req sfx env).2.indexOf Ev.sendRequest
            ∧ (proxy req sfx env).2.indexOf Ev.removeOnUpgrade
              < (proxy req sfx env).2.indexOf Ev.sendRequest) := by
  constructor
  · intro hs v
    simp only [get_upgrade_type]
    rcases hc : headerGet hs "connection" with _ | c
    · simp
    · cases ha : (splitOnChar ',' c.data).any
          (fun e => asciiLowerChars (trimChars e) == "upgrade".data) with
      | false =>
        simp only [ha, Bool.false_eq_true, if_false]
        constructor
        · intro hcon
          exact absurd hcon (by simp)
        · rintro ⟨c', hc', ⟨t, ht, heq⟩, hu⟩
          obtain rfl : c = c' := Option.some.inj hc'
          have : (splitOnChar ',' c.data).any
              (fun e => asciiLowerChars (trimChars e) == "upgrade".data) = true :=
            List.any_eq_true.mpr ⟨t, ht, beq_iff_eq.mpr heq⟩
          rw [ha] at this
          exact absurd this (by simp)
      | true =>
        simp only [ha, if_true]
        constructor
        · intro hu
          obtain ⟨t, ht, hbeq⟩ := List.any_eq_true.mp ha
          exact ⟨c, rfl, ⟨t, ht, beq_iff_eq.mp hbeq⟩, hu⟩
        · rintro ⟨c', hc', _, hu⟩
          exact hu
  · intro req sfx env hmem
    rcases (proxy_run_cases req sfx env).1 with h | h | h | ⟨extra, h⟩ <;>
      rw [h] at hmem ⊢
    · simp at hmem
    · simp at hmem
    · simp at hmem
    · refine ⟨?_, ?_⟩ <;>
        rw [List.indexOf_append_of_mem (by decide),
          List.indexOf_append_of_mem (by decide)] <;> decide

/-- C1 (evidence for the code bug): a present, readable Host header that
`extract_domain` rejects makes the handler panic on `.unwrap()` before any
backend connect is attempted — the client gets no 400 (or any) response. -/
theorem proxy_unroutable_host_panics :
    ∀ (req : RequestM) (sfx : String) (env : ProxyEnv) (hv : String),
      headerGet req.headers "host" = some hv → toStrOk hv = true →
      extract_domain hv = none →
      proxy req sfx env
          = (Outcome.panic "called Option unwrap on a None value", [])
        ∧ Ev.connectAttempt ∉ (proxy req sfx env).2
        ∧ ∀ resp, (proxy req sfx env).1 ≠ Outcome.ok resp := by
  intro req sfx env hv hh ht he
  have hp : proxy req sfx env
      = (Outcome.panic "called Option unwrap on a None value", []) := by
    simp [proxy, hh, ht, he]
  rw [hp]
  refine ⟨rfl, by simp, fun resp hcon => ?_⟩
  simp at hcon

theorem proxy_unroutable_host_panics_witness :
    proxy ⟨[("host", "example.com")], false⟩ "local" ⟨true, true, none, true⟩
      = (Outcome.panic "called Option unwrap on a None value", []) :=
  (proxy_unroutable_host_panics ⟨[("host", "example.com")], false⟩ "local"
    ⟨true, true, none, true⟩ "example.com" (by decide) (by decide) (by decide)).1

/-- C2 (evidence for the code bug): for a routable request, a failed backend
TCP connect panics the handler (`.unwrap()` on `TcpStream::connect`) and a
failed client handshake propagates `Err` through `?`; in neither case is any
response — in particular no 502 — produced for the client. -/
theorem proxy_backend_failure_no_error_response :
    ∀ (req : RequestM) (sfx : String) (env : ProxyEnv) (hv dom : String),
      headerGet req.headers "host" = some hv → toStrOk hv = true →
      extract_domain hv = some dom →
      (env.connectOk = false →
        proxy req sfx env
          = (Outcome.panic "called Result unwrap on an Err value",
              [Ev.connectAttempt]))
      ∧ (env.connectOk = true → env.handshakeOk = false →
        proxy req sfx env
          = (Outcome.fail,
              [Ev.connectAttempt, Ev.detectReqUpgrade, Ev.removeOnUpgrade]))
      ∧ (∀ resp, env.connectOk = false ∨ env.handshakeOk = false →
          (proxy req sfx env).1 ≠ Outcome.ok resp) := by
  intro req sfx env hv dom hh ht he
  refine ⟨?_, ?_, ?_⟩
  · intro hc
    simp [proxy, hh, ht, he, hc]
  · intro hc hk
    simp [proxy, hh, ht, he, hc, hk]
  · intro resp hor hcon
    by_cases hc : env.connectOk = true
    · rcases hor with hcf | hkf
      · rw [hc] at hcf
        exact absurd hcf (by simp)
      · have hp : proxy req sfx env
            = (Outcome.fail,
                [Ev.connectAttempt, Ev.detectReqUpgrade, Ev.removeOnUpgrade]) := by
          simp [proxy, hh, ht, he, hc, hkf]
        rw [hp] at hcon
        simp at hcon
    · have hcf : env.connectOk = false := Bool.not_eq_true _ ▸ Bool.eq_false_iff.mpr hc
      have hp : proxy req sfx env
          = (Outcome.panic "called Result unwrap on an Err value",
              [Ev.connectAttempt]) := by
        simp [proxy, hh, ht, he, hcf]
      rw [hp] at hcon
      simp at hcon

theorem proxy_backend_failure_no_error_response_witness :
    proxy ⟨[("host", "foo.1.2.3.4.nip.io")], false⟩ "local"
        ⟨false, true, none, true⟩
      = (Outcome.panic "called Result unwrap on an Err value",
          [Ev.connectAttempt]) :=
  (proxy_backend_failure_no_error_response ⟨[("host", "foo.1.2.3.4.nip.io")], false⟩
    "local" ⟨false, true, none, true⟩ "foo.1.2.3.4.nip.io" "foo."
    (by decide) (by decide) (by decide)).1 (by decide)

/-- C3 counterexample: the handler spawns the bridge for a 101 response even
though the request offered no upgrade (its detected upgrade protocol is
`none` — it has an `Upgrade` header but no `Connection: upgrade` token), as
the backend response also detects to `none` and `none = none` passes the
equality check. -/
theorem proxy_bridge_without_request_offer :
    Ev.spawnBridge ∈ (proxy
        ⟨[("host", "a.1.2.3.4.nip.io"), ("upgrade", "websocket")], true⟩
        "local" ⟨true, true, some ⟨101, [], true⟩, true⟩).2
      ∧ get_upgrade_type (rewriteHostHeaders
          [("host", "a.1.2.3.4.nip.io"), ("upgrade", "websocket")]
          "a." "local") = none := by
  constructor
  · decide
  · decide

/-- C3 amended: the bridge is spawned only when the backend response status
is 101, the request carries the `OnUpgrade` handoff, and the request's
detected upgrade protocol equals the response's — where both may be `none`,
i.e. a request that offered no detectable upgrade can still be bridged;
whenever the two detected protocols differ the exchange is never bridged and
the mismatch is reported with an error log. -/
theorem proxy_bridge_conditions :
    ∀ (req : RequestM) (sfx : String) (env : ProxyEnv),
      (Ev.spawnBridge ∈ (proxy req sfx env).2 →
        ∃ resp hv dom, headerGet req.headers "host" = some hv
          ∧ extract_domain hv = some dom
          ∧ env.sendResult = some resp ∧ resp.status = 101
          ∧ req.hasOnUpgrade = true
          ∧ get_upgrade_type (rewriteHostHeaders req.headers dom sfx)
              = get_upgrade_type resp.headers)
      ∧ (∀ (resp : ResponseM) (hv dom : String),
          headerGet req.headers "host" = some hv → toStrOk hv = true →
          extract_domain hv = some dom → env.connectOk = true →
          env.handshakeOk = true → env.sendResult = some resp →
          resp.status = 101 →
          get_upgrade_type (rewriteHostHeaders req.headers dom sfx)
              ≠ get_upgrade_type resp.headers →
          Ev.spawnBridge ∉ (proxy req sfx env).2
            ∧ Ev.logError "backend tried to switch to a different protocol"
                ∈ (proxy req sfx env).2) := by
  intro req sfx env
  refine ⟨(proxy_run_cases req sfx env).2, ?_⟩
  intro resp hv dom hh ht he hc hk hsr h101 hut
  have hp : proxy req sfx env
      = (Outcome.ok resp,
          [Ev.connectAttempt, Ev.detectReqUpgrade, Ev.removeOnUpgrade,
            Ev.sendRequest,
            Ev.logError "backend tried to switch to a different protocol"]) := by
    simp [proxy, hh, ht, he, hc, hk, hsr, h101, hut]
  rw [hp]
  exact ⟨by simp, by simp⟩

theorem proxy_bridge_conditions_witness :
    Ev.spawnBridge ∉ (proxy
        ⟨[("host", "a.1.2.3.4.nip.io"), ("connection", "Upgrade"),
          ("upgrade", "websocket")], true⟩
        "local"
        ⟨true, true,
          some ⟨101, [("connection", "upgrade"), ("upgrade", "other")], true⟩,
          true⟩).2 :=
  ((proxy_bridge_conditions
      ⟨[("host", "a.1.2.3.4.nip.io"), ("connection", "Upgrade"),
        ("upgrade", "websocket")], true⟩
      "local"
      ⟨true, true,
        some ⟨101, [("connection", "upgrade"), ("upgrade", "other")], true⟩,
        true⟩).2
    ⟨101, [("connection", "upgrade"), ("upgrade", "other")], true⟩
    "a.1.2.3.4.nip.io" "a." (by decide) (by decide) (by decide) (by decide)
    (by decide) (by decide) (by decide) (by decide)).1

/-- C8: on a 101 response whose detected upgrade protocol differs from the
request's, or when the request has no `OnUpgrade` handoff, the handler still
returns the original 101 response to the client, spawns no bridge, and logs
an error. -/
theorem proxy_mismatch_still_returns_response :
    ∀ (req : RequestM) (sfx : String) (env : ProxyEnv) (resp : ResponseM)
      (hv dom : String),
      headerGet req.headers "host" = some hv → toStrOk hv = true →
      extract_domain hv = some dom → env.connectOk = true →
      env.handshakeOk = true → env.sendResult = some resp →
      resp.status = 101 →
      (get_upgrade_type (rewriteHostHeaders req.headers dom sfx)
          ≠ get_upgrade_type resp.headers ∨ req.hasOnUpgrade = false) →
      (proxy req sfx env).1 = Outcome.ok resp
        ∧ Ev.spawnBridge ∉ (proxy req sfx env).2
        ∧ ∃ m, Ev.logError m ∈ (proxy req sfx env).2 := by
  intro req sfx env resp hv dom hh ht he hc hk hsr h101 hor
  rcases hor with hut | hhook
  · have hp : proxy req sfx env
        = (Outcome.ok resp,
            [Ev.connectAttempt, Ev.detectReqUpgrade, Ev.removeOnUpgrade,
              Ev.sendRequest,
              Ev.logError "backend tried to switch to a different protocol"]) := by
      simp [proxy, hh, ht, he, hc, hk, hsr, h101, hut]
    rw [hp]
    exact ⟨rfl, by simp,
      ⟨"backend tried to switch to a different protocol", by simp⟩⟩
  · by_cases hut : get_upgrade_type (rewriteHostHeaders req.headers dom sfx)
        = get_upgrade_type resp.headers
    · have hp : proxy req sfx env
          = (Outcome.ok resp,
              [Ev.connectAttempt, Ev.detectReqUpgrade, Ev.removeOnUpgrade,
                Ev.sendRequest,
                Ev.logError "request does not have an upgrade extension"]) := by
        simp [proxy, hh, ht, he, hc, hk, hsr, h101, hut, hhook]
      rw [hp]
      exact ⟨rfl, by simp,
        ⟨"request does not have an upgrade extension", by simp⟩⟩
    · have hp : proxy req sfx env
          = (Outcome.ok resp,
              [Ev.connectAttempt, Ev.detectReqUpgrade, Ev.removeOnUpgrade,
                Ev.sendRequest,
                Ev.logError "backend tried to switch to a different protocol"]) := by
        simp [proxy, hh, ht, he, hc, hk, hsr, h101, hut]
      rw [hp]
      exact ⟨rfl, by simp,
        ⟨"backend tried to switch to a different protocol", by simp⟩⟩

theorem proxy_mismatch_still_returns_response_witness :
    (proxy ⟨[("host", "a.1.2.3.4.nip.io"), ("connection", "Upgrade"),
        ("upgrade", "websocket")], true⟩
      "local"
      ⟨true, true,
        some ⟨101, [("connection", "upgrade"), ("upgrade", "other")], true⟩,
        true⟩).1
      = Outcome.ok ⟨101, [("connection", "upgrade"), ("upgrade", "other")], true⟩ :=
  (proxy_mismatch_still_returns_response
    ⟨[("host", "a.1.2.3.4.nip.io"), ("connection", "Upgrade"),
      ("upgrade", "websocket")], true⟩
    "local"
    ⟨true, true,
      some ⟨101, [("connection", "upgrade"), ("upgrade", "other")], true⟩,
      true⟩
    ⟨101, [("connection", "upgrade"), ("upgrade", "other")], true⟩
    "a.1.2.3.4.nip.io" "a." (by decide) (by decide) (by decide) (by decide)
    (by decide) (by decide) (by decide) (Or.inl (by decide))).1

/-- C10: a request with no Host header at all panics the handler at the
`headers["host"]` index (and a Host value that is not a valid string panics
at `to_str().unwrap()`); the run ends in a panic with an empty effect trace,
so no HTTP response of any kind is produced. -/
theorem proxy_missing_host_panics :
    ∀ (req : RequestM) (sfx : String) (env : ProxyEnv),
      (headerGet req.headers "host" = none →
        proxy req sfx env = (Outcome.panic "no entry found for key host", []))
      ∧ (∀ hv, headerGet req.headers "host" = some hv → toStrOk hv = false →
        proxy req sfx env
          = (Outcome.panic "called Result unwrap on an Err value: ToStrError",
              [])) := by
  intro req sfx env
  constructor
  · intro hh
    simp [proxy, hh]
  · intro hv hh ht
    simp [proxy, hh, ht]

theorem proxy_missing_host_panics_witness :
    proxy ⟨[("content-type", "text/html")], false⟩ "local"
        ⟨true, true, none, true⟩
      = (Outcome.panic "no entry found for key host", []) :=
  (proxy_missing_host_panics ⟨[("content-type", "text/html")], false⟩ "local"
    ⟨true, true, none, true⟩).1 (by decide)

theorem get_upgrade_type_spec_witness :
    (proxy ⟨[("host", "a.1.2.3.4.nip.io")], false⟩ "local"
        ⟨true, true, some ⟨200, [], false⟩, true⟩).2.indexOf Ev.detectReqUpgrade
      < (proxy ⟨[("host", "a.1.2.3.4.nip.io")], false⟩ "local"
        ⟨true, true, some ⟨200, [], false⟩, true⟩).2.indexOf Ev.sendRequest :=
  (get_upgrade_type_spec.2 ⟨[("host", "a.1.2.3.4.nip.io")], false⟩ "local"
    ⟨true, true, some ⟨200, [], false⟩, true⟩ (by decide)).1
